import Mathlib

/-!
Verification of the Athrok persistence core: a shallow embedding of the
storage registry (`StorageManager`), the per-key debounced persistence
handler (`StorageHandler`), and the lazy-hydrating state container
(`AthrokMaster`), together with proofs of the specified properties.

JavaScript runtime values flowing through the library are modelled by the
`JValue` type below; `undefined` represents the JavaScript `undefined` value,
which is distinct from JSON `null`.
-/

/-- Model of the JavaScript values handled by the library: JSON values plus
the distinguished `undefined`.  Object fields are kept as an ordered
association list (JavaScript objects preserve insertion order and have
unique keys). -/
inductive JValue where
  | undefined : JValue
  | null : JValue
  | bool (b : Bool) : JValue
  | num (n : Int) : JValue
  | str (s : String) : JValue
  | arr (xs : List JValue) : JValue
  | obj (fields : List (String × JValue)) : JValue

/-- Test for the JavaScript `undefined` value. -/
def isUndefined : JValue → Bool
  | .undefined => true
  | _ => false

/-- Association-list lookup on object fields: the first binding wins
(parsed objects keep keys unique, so this is the JavaScript property
lookup). `none` models reading an absent property (`undefined`). -/
def lookupF : List (String × JValue) → String → Option JValue
  | [], _ => none
  | (k, v) :: rest, key => if k = key then some v else lookupF rest key

/-- JavaScript property read `v[key]` as used by the library: object own
property or `undefined`; any non-object receiver yields `undefined` here
(the properties the library reads never exist on primitives). -/
def objGetD : JValue → String → JValue
  | .obj fields, key => (lookupF fields key).getD .undefined
  | _, _ => .undefined

/-- Embedding of `isObject` from `src/utils/functions.ts`:
`(item && typeof item === "object" && !Array.isArray(item)) || false`.
`null` is falsy, arrays are excluded, every other object passes. -/
def isObject : JValue → Bool
  | .obj _ => true
  | _ => false

/-- JavaScript object-spread update of one field: an existing binding is
overwritten in place (keeping its position); a new key is appended. -/
def recordSet (fields : List (String × JValue)) (key : String) (v : JValue) :
    List (String × JValue) :=
  if fields.any (fun p => p.1 = key) then
    fields.map (fun p => if p.1 = key then (key, v) else p)
  else
    fields ++ [(key, v)]

/-- Spread one value's enumerable own properties into an accumulator, as in
`{...base, ...v}`: objects contribute their fields in order, primitives
contribute nothing.  (String spread, which would contribute index keys, is
never reached by the library and is not modelled.) -/
def spreadInto (base : List (String × JValue)) : JValue → List (String × JValue)
  | .obj fields => fields.foldl (fun acc p => recordSet acc p.1 p.2) base
  | _ => base

/-- Embedding of `shallowMerge` from `src/utils/functions.ts`, specialised
to its two-argument use in the library:
`objects.reduce((prev, cur) => ({...prev, ...cur}), {})`. -/
def shallowMerge2 (a b : JValue) : JValue :=
  .obj (spreadInto (spreadInto [] a) b)

/-- JavaScript nullish coalescing `a ?? b`. -/
def nullish (a b : JValue) : JValue :=
  match a with
  | .undefined => b
  | .null => b
  | v => v

/-- Opening brace character, written via its code point. -/
def jlbrace : Char := Char.ofNat 123

/-- Closing brace character, written via its code point. -/
def jrbrace : Char := Char.ofNat 125

/-- Escape a character for a JSON string literal (quote and backslash;
control characters never occur in the library's keys or payloads and are
not modelled). -/
def escapeChar (c : Char) : String :=
  if c = '"' then "\\\"" else if c = '\\' then "\\\\" else String.singleton c

/-- Escape a whole string for JSON output. -/
def escapeStr (s : String) : String :=
  s.data.foldl (fun acc c => acc ++ escapeChar c) ""

/-- Model of `JSON.stringify` on the values the library serializes.  An
`undefined` array element prints as `null` (the JavaScript rule); `undefined`
object fields are omitted, as `JSON.stringify` drops `undefined`-valued
properties. -/
def jsonStringify : JValue → String
  | .undefined => "null"
  | .null => "null"
  | .bool true => "true"
  | .bool false => "false"
  | .num n => toString n
  | .str s => "\"" ++ escapeStr s ++ "\""
  | .arr xs => "[" ++ String.intercalate "," (xs.attach.map (fun x => jsonStringify x.1)) ++ "]"
  | .obj fs =>
      String.singleton jlbrace ++
        String.intercalate ","
          (((fs.filter (fun p => !(isUndefined p.2))).attach).map
            (fun p => "\"" ++ escapeStr p.1.1 ++ "\":" ++ jsonStringify p.1.2)) ++
        String.singleton jrbrace
decreasing_by
  · have h1 := List.sizeOf_lt_of_mem x.2
    simp only [JValue.arr.sizeOf_spec]
    omega
  · have h2 : p.1 ∈ fs := List.mem_of_mem_filter p.2
    have h3 := List.sizeOf_lt_of_mem h2
    have h4 : sizeOf p.1.2 < sizeOf p.1 := by
      obtain ⟨a, b⟩ := p.1
      simp only [Prod.mk.sizeOf_spec]
      omega
    simp only [JValue.obj.sizeOf_spec]
    omega

/-- Skip JSON whitespace. -/
def skipWs : List Char → List Char
  | [] => []
  | c :: rest =>
    if c = ' ' ∨ c = '\n' ∨ c = '\t' ∨ c = '\r' then skipWs rest else c :: rest

/-- Parse the body of a JSON string literal (after the opening quote).
Escape sequences are not modelled: a backslash fails the parse; no key or
payload in this development contains one. -/
def parseStringLit : List Char → String → Option (String × List Char)
  | [], _ => none
  | c :: rest, acc =>
    if c = '"' then some (acc, rest)
    else if c = '\\' then none
    else parseStringLit rest (acc.push c)

/-- Match a literal character sequence, returning the remainder. -/
def matchLit : List Char → List Char → Option (List Char)
  | [], cs => some cs
  | l :: ls, c :: cs => if c = l then matchLit ls cs else none
  | _ :: _, [] => none

/-- Split leading decimal digits from the input. -/
def takeDigits : List Char → List Char × List Char
  | [] => ([], [])
  | c :: rest =>
    if c.isDigit then
      let (ds, r) := takeDigits rest
      (c :: ds, r)
    else ([], c :: rest)

/-- Digits to a natural number. -/
def digitsToNat (ds : List Char) : Nat :=
  ds.foldl (fun a c => a * 10 + (c.toNat - 48)) 0

/-- Parse a JSON integer (floats and exponents are not modelled: a
fractional or exponent part fails the parse; the library's version numbers
are integers). -/
def parseNum (cs : List Char) (neg : Bool) : Option (JValue × List Char) :=
  match takeDigits cs with
  | ([], _) => none
  | (ds, rest) =>
    let bad : Bool :=
      match rest with
      | c :: _ => c == '.' || c == 'e' || c == 'E'
      | [] => false
    if bad then none
    else
      let n : Int := Int.ofNat (digitsToNat ds)
      some (.num (if neg then -n else n), rest)

/-- Parsing mode: a single value, the tail of an array, or the tail of an
object body (with the fields accumulated so far). -/
inductive PMode where
  | val : PMode
  | elems (acc : List JValue) : PMode
  | fields (acc : List (String × JValue)) : PMode

/-- Fuel-indexed recursive-descent JSON parser.  Duplicate object keys are
resolved late-binding-wins through `recordSet`, as `JSON.parse` does. -/
def parseF : Nat → PMode → List Char → Option (JValue × List Char)
  | 0, _, _ => none
  | fuel + 1, .val, cs =>
    match skipWs cs with
    | [] => none
    | c :: rest =>
      if c = jlbrace then
        match skipWs rest with
        | c2 :: rest2 =>
          if c2 = jrbrace then some (.obj [], rest2)
          else parseF fuel (.fields []) rest
        | [] => none
      else if c = '[' then
        match skipWs rest with
        | c2 :: rest2 =>
          if c2 = ']' then some (.arr [], rest2)
          else parseF fuel (.elems []) rest
        | [] => none
      else if c = '"' then
        match parseStringLit rest "" with
        | some (s, r) => some (.str s, r)
        | none => none
      else if c = 't' then
        match matchLit ['r', 'u', 'e'] rest with
        | some r => some (.bool true, r)
        | none => none
      else if c = 'f' then
        match matchLit ['a', 'l', 's', 'e'] rest with
        | some r => some (.bool false, r)
        | none => none
      else if c = 'n' then
        match matchLit ['u', 'l', 'l'] rest with
        | some r => some (.null, r)
        | none => none
      else if c = '-' then parseNum rest true
      else if c.isDigit then parseNum (c :: rest) false
      else none
  | fuel + 1, .elems acc, cs =>
    match parseF fuel .val cs with
    | none => none
    | some (v, rest) =>
      match skipWs rest with
      | [] => none
      | c :: rest2 =>
        if c = ',' then parseF fuel (.elems (acc ++ [v])) rest2
        else if c = ']' then some (.arr (acc ++ [v]), rest2)
        else none
  | fuel + 1, .fields acc, cs =>
    match skipWs cs with
    | [] => none
    | c :: rest =>
      if c = '"' then
        match parseStringLit rest "" with
        | none => none
        | some (k, rest2) =>
          match skipWs rest2 with
          | [] => none
          | c2 :: rest3 =>
            if c2 = ':' then
              match parseF fuel .val rest3 with
              | none => none
              | some (v, rest4) =>
                match skipWs rest4 with
                | [] => none
                | c3 :: rest5 =>
                  if c3 = ',' then parseF fuel (.fields (recordSet acc k v)) rest5
                  else if c3 = jrbrace then some (.obj (recordSet acc k v), rest5)
                  else none
            else none
      else none

/-- Model of `JSON.parse`: `none` is a thrown `SyntaxError`. -/
def jsonParse (s : String) : Option JValue :=
  match parseF (2 * s.length + 4) .val s.data with
  | some (v, rest) => if skipWs rest = [] then some v else none
  | none => none

/-- JavaScript loose equality `config.version == record.version` restricted
to the shapes a version field can take: the config side is a number or
`undefined`, the record side any JSON value (or `undefined` when the field
is absent).  `undefined == undefined` and `undefined == null` are true;
a number equals only the same number.  (Numeric-string coercion is not
modelled: it is outside well-formed records.) -/
def versionLooseEq (cfgVersion : Option Int) (recVersion : JValue) : Bool :=
  match cfgVersion, recVersion with
  | none, .undefined => true
  | none, .null => true
  | none, _ => false
  | some n, .num m => n == m
  | some _, _ => false

/-- Modelled from the spec: the fixed label prefixed to a store name to
form its persistence key (`src/utils/constants.ts` is not among the
sources; only the label's existence and fixedness matter). -/
def ATHROK_KEY_LABEL : String := "athrok-"

/-- Modelled from the spec: the fixed well-known key under which the
registry-config record `\x7b keys: [...] \x7d` is stored; distinct from
every persistence key. -/
def ATHROK_CONFIG_LABEL : String := "athrok-config"

/-- A user-supplied `IAthrokPersistConfig` before defaults are filled in:
optional fields are `none` when absent.  The `partial` selector of the
source is named `partFn` here. -/
structure PersistConfigInput where
  enable : Bool
  debounceTime : Option Nat := none
  version : Option Int := none
  migrate : Option (JValue → JValue) := none
  partFn : Option (JValue → JValue) := none
  merge : Option (JValue → JValue → JValue) := none

/-- The handler's effective config, with the constructor's defaults
(`debounceTime = 100`, identity `partial`, `shallowMerge`) filled in. -/
structure PersistConfig where
  enable : Bool
  debounceTime : Nat
  version : Option Int
  migrate : Option (JValue → JValue)
  partFn : JValue → JValue
  merge : JValue → JValue → JValue

/-- Embedding of the default-filling spread in the `StorageHandler`
constructor (`src/storage/handler.ts`):
`\x7b debounceTime: 100, partial: id, merge: shallowMerge, ...persisConfig \x7d`. -/
def fillPersistConfig (c : PersistConfigInput) : PersistConfig :=
  { enable := c.enable
    debounceTime := c.debounceTime.getD 100
    version := c.version
    migrate := c.migrate
    partFn := c.partFn.getD id
    merge := c.merge.getD shallowMerge2 }

/-- The result of `StorageHandler.getItem`: the `NotFound` sentinel or a
value (possibly `undefined`, since the record's `value` property is read with
plain destructuring). -/
inductive GetResult where
  | notFound : GetResult
  | value (v : JValue) : GetResult

/-- A `getItem` call's result instrumented with the list of arguments the
`migrate` function was invoked on (in order), so "invoked exactly once"
is expressible. -/
structure GetOutcome where
  result : GetResult
  migrateCalls : List JValue

/-- Registry cache read `StorageManager.persistData[key]`: an absent key
reads as `undefined`. -/
def persistLookup (pd : List (String × JValue)) (key : String) : JValue :=
  (lookupF pd key).getD .undefined

/-- Embedding of `StorageHandler.getItem` (`src/storage/handler.ts`,
the version cited by the claims):
if the cached entry is not an object, return `NotFound`; destructure
`\x7b value, version \x7d`; on loose version equality return `value`;
otherwise `migrate(value)` when configured, else `NotFound`. -/
def StorageHandler.getItem (cfg : PersistConfig) (pd : List (String × JValue))
    (key : String) : GetOutcome :=
  let raw := persistLookup pd key
  if !(isObject raw) then ⟨.notFound, []⟩
  else
    let value := objGetD raw "value"
    let version := objGetD raw "version"
    if versionLooseEq cfg.version version then ⟨.value value, []⟩
    else
      match cfg.migrate with
      | some m => ⟨.value (m value), [value]⟩
      | none => ⟨.notFound, []⟩

/-- A write reaching the backend: at what time, under which key, with
which serialized payload. -/
structure BackendWrite where
  time : Nat
  key : String
  payload : String
deriving Repr, DecidableEq

/-- The serialized record the debounced task writes:
`JSON.stringify(\x7b value: partial(data), version \x7d)`; an absent
version is dropped by `JSON.stringify`. -/
def serializePayload (cfg : PersistConfig) (data : JValue) : String :=
  jsonStringify (.obj
    [("value", cfg.partFn data),
     ("version", match cfg.version with | some n => .num n | none => .undefined)])

/-- Executes a sequence of time-stamped `StorageHandler.setItem` calls
against the single-slot timer of `src/storage/handler.ts`: each call first
lets a pending task whose deadline has passed fire, then cancels the slot
(`clearTimeout`) and schedules a fresh task at `now + debounceTime`; after
the last call the remaining task fires at its deadline. -/
def runBurstGo (cfg : PersistConfig) (key : String) :
    Option (Nat × JValue) → List (Nat × JValue) → List BackendWrite
  | pending, [] =>
    match pending with
    | some (ft, d) => [⟨ft, key, serializePayload cfg d⟩]
    | none => []
  | pending, (t, v) :: rest =>
    let fired :=
      match pending with
      | some (ft, d) => if ft ≤ t then [⟨ft, key, serializePayload cfg d⟩] else []
      | none => []
    fired ++ runBurstGo cfg key (some (t + cfg.debounceTime, v)) rest

/-- All backend writes produced by a burst of `setItem` calls starting
from an idle timer slot. -/
def runBurst (cfg : PersistConfig) (key : String) (calls : List (Nat × JValue)) :
    List BackendWrite :=
  runBurstGo cfg key none calls

/-- Every call of the burst (after the first) arrives within
`debounceTime` of the previous one. -/
def withinBurst (D : Nat) : List (Nat × JValue) → Bool
  | [] => true
  | [_] => true
  | (t1, _) :: (t2, v2) :: rest =>
    decide (t1 ≤ t2) && decide (t2 < t1 + D) && withinBurst D ((t2, v2) :: rest)

/-- Last element of a nonempty list given as head and tail. -/
def lastCall : (Nat × JValue) → List (Nat × JValue) → Nat × JValue
  | d, [] => d
  | _, x :: rest => lastCall x rest

/-- A container's storage handler: the `UninitializedStorageHandler`
stand-in or a real `StorageHandler` with its key and effective config. -/
inductive HandlerKind where
  | uninitialized : HandlerKind
  | real (key : String) (cfg : PersistConfig) : HandlerKind

/-- The `instanceof StorageHandler` test used by `initializeValue`. -/
def HandlerKind.isReal : HandlerKind → Bool
  | .uninitialized => false
  | .real _ _ => true

/-- Dispatch `handler.getItem()`: the uninitialized variant always returns
`NotFound` and never calls `migrate`. -/
def handlerGetItem : HandlerKind → List (String × JValue) → GetOutcome
  | .uninitialized, _ => ⟨.notFound, []⟩
  | .real key cfg, pd => StorageHandler.getItem cfg pd key

/-- The observable state of an `AthrokMaster` container
(`src/store/master.ts`).  Listeners are identified by numbers; the JS
`Set` keeps them in insertion order without duplicates.  `hydrated` models
whether `fetchCurrentState` has been swapped for the plain field reader. -/
structure MasterState where
  typeTag : String
  initialValue : JValue
  currentValue : JValue
  listeners : List Nat
  handler : HandlerKind
  hydrated : Bool

/-- Result of a hydration pass or a `get()` call: the (possibly updated)
container, the returned value, how many times `handler.getItem()` was
invoked, and the arguments passed to `migrate`. -/
structure HydrateOutcome where
  state : MasterState
  value : JValue
  getItemCalls : Nat
  migrateCalls : List JValue

/-- Embedding of `AthrokMaster.initializeValue` (`src/store/master.ts`):
read the handler once; when the result is not `NotFound` and the handler
is a real `StorageHandler`, dispatch on the type tag — `AthrokState`
merges when both initial and stored values are records and otherwise
replaces; `AthrokStore` always merges (stored `?? \x7b\x7d`); any other
tag leaves the value alone; finally swap `fetchCurrentState` for the
plain reader. -/
def AthrokMaster.initializeValue (pd : List (String × JValue)) (s : MasterState) :
    HydrateOutcome :=
  let out := handlerGetItem s.handler pd
  let cur :=
    match out.result, s.handler with
    | .value storedValue, .real _ cfg =>
      match s.typeTag with
      | "AthrokState" =>
        if isObject s.initialValue && isObject storedValue then
          cfg.merge s.currentValue storedValue
        else storedValue
      | "AthrokStore" => cfg.merge s.currentValue (nullish storedValue (.obj []))
      | _ => s.currentValue
    | _, _ => s.currentValue
  ⟨{ s with currentValue := cur, hydrated := true }, cur, 1, out.migrateCalls⟩

/-- Embedding of `AthrokMaster.get`: call `fetchCurrentState`, which is
`initializeValue` until the first hydration and the plain field reader
afterwards (reading nothing from the registry). -/
def AthrokMaster.get (pd : List (String × JValue)) (s : MasterState) :
    HydrateOutcome :=
  if s.hydrated then ⟨s, s.currentValue, 0, []⟩
  else AthrokMaster.initializeValue pd s

/-- A `set()` argument: an update function or a literal replacement. -/
inductive Update where
  | fn (f : JValue → JValue) : Update
  | lit (v : JValue) : Update

/-- `typeof update === "function" ? update(current) : update`. -/
def applyUpdate : Update → JValue → JValue
  | .fn f, cur => f cur
  | .lit v, _ => v

/-- Result of a `set()` call: the new container state, the number of
`handler.getItem()` invocations, the listener notifications (listener id,
argument) in invocation order, and the values forwarded to
`handler.setItem`. -/
structure SetOutcome where
  state : MasterState
  getItemCalls : Nat
  notifications : List (Nat × JValue)
  persisted : List JValue

/-- Embedding of `AthrokMaster.set`: force hydration via
`fetchCurrentState()`, compute the new value against the just-hydrated
current value, store it, notify every listener in insertion order with
it, and forward it to `handler.setItem`. -/
def AthrokMaster.set (pd : List (String × JValue)) (s : MasterState) (u : Update) :
    SetOutcome :=
  let h := AthrokMaster.get pd s
  let newValue := applyUpdate u h.state.currentValue
  let s2 := { h.state with currentValue := newValue }
  ⟨s2, h.getItemCalls, s2.listeners.map (fun l => (l, newValue)), [newValue]⟩

/-- Embedding of `AthrokMaster.subscribe`: `listeners.add(listener)` on a
JS `Set` — a no-op for an already-present listener, appended otherwise. -/
def AthrokMaster.subscribe (s : MasterState) (l : Nat) : MasterState :=
  { s with listeners := if s.listeners.contains l then s.listeners else s.listeners ++ [l] }

/-- Embedding of the disposer returned by `subscribe`:
`listeners.delete(listener)`. -/
def AthrokMaster.unsubscribe (s : MasterState) (l : Nat) : MasterState :=
  { s with listeners := s.listeners.erase l }

/-- Which class `new` was invoked on (`new.target` in the constructor):
the abstract base, or one of its concrete subclasses. -/
inductive NewTarget where
  | athrokMaster : NewTarget
  | athrokState : NewTarget
  | athrokStore : NewTarget

/-- The `type` tag each concrete subclass assigns after `super(...)`
(`AthrokStore` in `src/store/store.ts`; `AthrokState` per its sibling
state container); the base leaves the tag empty. -/
def tagOfTarget : NewTarget → String
  | .athrokMaster => ""
  | .athrokState => "AthrokState"
  | .athrokStore => "AthrokStore"

/-- An `IAthrokStoreConfig`: optional store name and persist config. -/
structure StoreConfig where
  name : Option String := none
  persist : Option PersistConfigInput := none

/-- Embedding of the `AthrokMaster` constructor: instantiating the base
class directly throws; otherwise the container starts unhydrated at its
initial value with no listeners, and a real `StorageHandler` (whose
constructor derives the key and registers it — returned here as the list
of registered keys) is attached exactly when a name is configured and
persistence is enabled. -/
def AthrokMaster.construct (nt : NewTarget) (initialValue : JValue)
    (config : Option StoreConfig) : Except String (MasterState × List String) :=
  match nt with
  | .athrokMaster => .error "Parent class cannot be instantiated directly."
  | _ =>
    let handlerInfo : HandlerKind × List String :=
      match config with
      | some c =>
        match c.name, c.persist with
        | some nm, some p =>
          if p.enable then
            let key := ATHROK_KEY_LABEL ++ nm
            (.real key (fillPersistConfig p), [key])
          else (.uninitialized, [])
        | _, _ => (.uninitialized, [])
      | none => (.uninitialized, [])
    .ok
      ({ typeTag := tagOfTarget nt
         initialValue := initialValue
         currentValue := initialValue
         listeners := []
         handler := handlerInfo.1
         hydrated := false }, handlerInfo.2)

/-- The registry's observable state (`src/storage/manager.ts`):
whether a real backend is installed (`storage` is not the
`UninitializedStorage` stand-in), the in-memory record cache, the
persistence-key set (insertion-ordered, duplicate-free), and the restore
flag. -/
structure ManagerState where
  storageInitialized : Bool
  persistData : List (String × JValue)
  persistenceKeys : List String
  isPersistDataRestored : Bool

/-- A call the registry makes on its backend. -/
inductive BackendOp where
  | removeItem (key : String) : BackendOp
  | setItem (key : String) (value : String) : BackendOp
deriving Repr, DecidableEq

/-- Embedding of `StorageManager.syncPersistentConfig`: when a real
backend is installed, write the full current key set as
`JSON.stringify(\x7b keys: [...] \x7d)` under the fixed config key;
against the uninitialized backend the write is skipped. -/
def syncPersistentConfig (s : ManagerState) : List BackendOp :=
  if s.storageInitialized then
    [.setItem ATHROK_CONFIG_LABEL
      (jsonStringify (.obj [("keys", .arr (s.persistenceKeys.map JValue.str))]))]
  else []

/-- Embedding of `StorageManager.setPersistenceKey`: add the key to the
set, then re-sync the config record. -/
def StorageManager.setPersistenceKey (s : ManagerState) (key : String) :
    ManagerState × List BackendOp :=
  let s' := { s with persistenceKeys :=
    if s.persistenceKeys.contains key then s.persistenceKeys
    else s.persistenceKeys ++ [key] }
  (s', syncPersistentConfig s')

/-- Embedding of `StorageManager.clearPersistence`: delete the key from
the set (`has && delete`), call `storage.removeItem(key)`, then re-sync
the config record.  The in-memory `persistData` cache is not touched. -/
def StorageManager.clearPersistence (s : ManagerState) (key : String) :
    ManagerState × List BackendOp :=
  let s' := { s with persistenceKeys := s.persistenceKeys.erase key }
  (s', .removeItem key :: syncPersistentConfig s')

/-- A JavaScript exception raised while reading the config record. -/
inductive JsError where
  | syntaxError : JsError
  | typeError : JsError
deriving Repr, DecidableEq

/-- `Set<string>.add`: no-op when present, appended otherwise. -/
def setAddStr (ks : List String) (k : String) : List String :=
  if ks.contains k then ks else ks ++ [k]

/-- Embedding of the config-read phase of `StorageManager.initialize`
(`src/storage/manager.ts` lines 70-81) applied to the raw string the
backend returned for the config key:

* a nullish or empty (falsy) string skips the parse (`configData = \x7b\x7d`)
  and leaves the key set unchanged;
* a non-empty string goes through `JSON.parse`, whose failure propagates
  (`SyntaxError`);
* a parse result of `null` throws reading `.keys` (`TypeError`);
* an array's `keys` property is the `Array.prototype.keys` method, so
  `keys?.forEach` calls `undefined` (`TypeError`); likewise an object
  whose `keys` property is neither nullish nor an array;
* an object with an array `keys` adds each key to the set (the library
  only ever writes string keys; non-string entries are skipped here);
* any other primitive has no `keys` property, so the optional chain
  short-circuits and the key set is unchanged. -/
def readConfigKeys (configDataString : Option String) (ks : List String) :
    Except JsError (List String) :=
  match configDataString with
  | none => .ok ks
  | some s =>
    if s = "" then .ok ks
    else
      match jsonParse s with
      | none => .error .syntaxError
      | some .null => .error .typeError
      | some (.arr _) => .error .typeError
      | some (.obj fields) =>
        match lookupF fields "keys" with
        | none => .ok ks
        | some .undefined => .ok ks
        | some .null => .ok ks
        | some (.arr xs) =>
          .ok (xs.foldl
            (fun acc x => match x with | .str k => setAddStr acc k | _ => acc) ks)
        | some _ => .error .typeError
      | some _ => .ok ks

theorem lookupF_append (xs ys : List (String × JValue)) (k : String) :
    lookupF (xs ++ ys) k =
      match lookupF xs k with
      | some v => some v
      | none => lookupF ys k := by
  induction xs with
  | nil => simp [lookupF]
  | cons p rest ih =>
    obtain ⟨k1, v1⟩ := p
    by_cases h : k1 = k <;> simp [lookupF, h, ih]

theorem lookupF_none_of_any_false (fs : List (String × JValue)) (k : String)
    (h : fs.any (fun p => p.1 = k) = false) : lookupF fs k = none := by
  induction fs with
  | nil => rfl
  | cons p rest ih =>
    obtain ⟨k1, v1⟩ := p
    simp only [List.any_cons, Bool.or_eq_false_iff] at h
    have h1 : k1 ≠ k := by simpa using h.1
    simp [lookupF, h1, ih h.2]

theorem lookupF_map_replace_self (k : String) (v : JValue) :
    ∀ (fs : List (String × JValue)), fs.any (fun p => p.1 = k) = true →
    lookupF (fs.map (fun p => if p.1 = k then (k, v) else p)) k = some v := by
  intro fs
  induction fs with
  | nil => intro h; simp at h
  | cons p rest ih =>
    intro hany
    obtain ⟨k1, v1⟩ := p
    by_cases h : k1 = k
    · subst h
      have hif : (if ((k1, v1) : String × JValue).1 = k1 then ((k1, v) : String × JValue)
          else (k1, v1)) = (k1, v) := by
        simp
      rw [List.map_cons, hif]
      simp [lookupF]
    · have h2 : rest.any (fun p => decide (p.1 = k)) = true := by
        simp only [List.any_cons, Bool.or_eq_true] at hany
        rcases hany with h' | h'
        · exact absurd (of_decide_eq_true h') h
        · exact h'
      have hif : (if ((k1, v1) : String × JValue).1 = k then ((k, v) : String × JValue)
          else (k1, v1)) = (k1, v1) := by
        simp [h]
      rw [List.map_cons, hif]
      simp [lookupF, h, ih h2]

theorem lookupF_map_replace_other (k : String) (v : JValue) (k' : String) (h : k' ≠ k) :
    ∀ (fs : List (String × JValue)),
    lookupF (fs.map (fun p => if p.1 = k then (k, v) else p)) k' = lookupF fs k' := by
  intro fs
  induction fs with
  | nil => rfl
  | cons p rest ih =>
    obtain ⟨k1, v1⟩ := p
    by_cases h1 : k1 = k
    · subst h1
      have hif : (if ((k1, v1) : String × JValue).1 = k1 then ((k1, v) : String × JValue)
          else (k1, v1)) = (k1, v) := by
        simp
      rw [List.map_cons, hif]
      have h2 : k1 ≠ k' := fun hh => h (hh.symm ▸ rfl)
      simp [lookupF, h2, ih]
    · have hif : (if ((k1, v1) : String × JValue).1 = k then ((k, v) : String × JValue)
          else (k1, v1)) = (k1, v1) := by
        simp [h1]
      rw [List.map_cons, hif]
      by_cases h3 : k1 = k'
      · simp [lookupF, h3]
      · simp [lookupF, h3, ih]

theorem lookupF_recordSet_self (fs : List (String × JValue)) (k : String) (v : JValue) :
    lookupF (recordSet fs k v) k = some v := by
  unfold recordSet
  by_cases hany : fs.any (fun p => p.1 = k) = true
  · simp only [hany, if_true]
    exact lookupF_map_replace_self k v fs hany
  · rw [Bool.not_eq_true] at hany
    simp only [hany, Bool.false_eq_true, if_false]
    rw [lookupF_append]
    simp [lookupF_none_of_any_false fs k hany, lookupF]

theorem lookupF_recordSet_other (fs : List (String × JValue)) (k : String) (v : JValue)
    (k' : String) (h : k' ≠ k) :
    lookupF (recordSet fs k v) k' = lookupF fs k' := by
  unfold recordSet
  by_cases hany : fs.any (fun p => p.1 = k) = true
  · simp only [hany, if_true]
    exact lookupF_map_replace_other k v k' h fs
  · rw [Bool.not_eq_true] at hany
    simp only [hany, Bool.false_eq_true, if_false]
    rw [lookupF_append]
    cases hx : lookupF fs k' with
    | some w => simp
    | none =>
      have h2 : ¬ k = k' := fun hh => h hh.symm
      simp [lookupF, h2]

theorem lookupF_foldl_recordSet_not_mem (k : String) :
    ∀ (fs : List (String × JValue)) (base : List (String × JValue)),
    k ∉ fs.map Prod.fst →
    lookupF (fs.foldl (fun acc p => recordSet acc p.1 p.2) base) k = lookupF base k := by
  intro fs
  induction fs with
  | nil => intro base _; rfl
  | cons p rest ih =>
    intro base hmem
    obtain ⟨k1, v1⟩ := p
    simp only [List.map_cons, List.mem_cons] at hmem
    push_neg at hmem
    rw [List.foldl_cons, ih _ hmem.2,
      lookupF_recordSet_other _ _ _ _ hmem.1]

theorem lookupF_foldl_recordSet_hit (k : String) (v : JValue) :
    ∀ (fs : List (String × JValue)) (base : List (String × JValue)),
    (fs.map Prod.fst).Nodup → lookupF fs k = some v →
    lookupF (fs.foldl (fun acc p => recordSet acc p.1 p.2) base) k = some v := by
  intro fs
  induction fs with
  | nil => intro base _ h; simp [lookupF] at h
  | cons p rest ih =>
    intro base hnd hl
    obtain ⟨k1, v1⟩ := p
    simp only [List.map_cons, List.nodup_cons] at hnd
    by_cases h : k1 = k
    · subst h
      have hv : v1 = v := by
        simpa [lookupF] using hl
      subst hv
      rw [List.foldl_cons,
        lookupF_foldl_recordSet_not_mem _ _ _ hnd.1,
        lookupF_recordSet_self]
    · have hl2 : lookupF rest k = some v := by
        simpa [lookupF, h] using hl
      rw [List.foldl_cons]
      exact ih _ hnd.2 hl2

theorem shallowMerge2_stored_wins (fsI fsS : List (String × JValue)) (k : String)
    (v : JValue) (hnd : (fsS.map Prod.fst).Nodup) (hl : lookupF fsS k = some v) :
    objGetD (shallowMerge2 (.obj fsI) (.obj fsS)) k = v := by
  simp only [shallowMerge2, spreadInto, objGetD]
  rw [lookupF_foldl_recordSet_hit k v fsS _ hnd hl]
  rfl

theorem shallowMerge2_initial_kept (fsI fsS : List (String × JValue)) (k : String)
    (hmem : k ∉ fsS.map Prod.fst) :
    objGetD (shallowMerge2 (.obj fsI) (.obj fsS)) k =
      objGetD (shallowMerge2 (.obj fsI) (.obj [])) k := by
  simp only [shallowMerge2, spreadInto, objGetD]
  rw [lookupF_foldl_recordSet_not_mem k fsS _ hmem]
  rfl

theorem getItem_wellformed (cfg : PersistConfig) (pd : List (String × JValue))
    (key : String) (fields : List (String × JValue)) (v : JValue) (recVer : Option Int)
    (hrec : persistLookup pd key = .obj fields)
    (hval : lookupF fields "value" = some v)
    (hver : lookupF fields "version" = recVer.map JValue.num) :
    StorageHandler.getItem cfg pd key =
      if cfg.version = recVer then ⟨.value v, []⟩
      else
        match cfg.migrate with
        | some m => ⟨.value (m v), [v]⟩
        | none => ⟨.notFound, []⟩ := by
  have hvv : objGetD (.obj fields) "value" = v := by
    simp [objGetD, hval]
  have hvr : objGetD (.obj fields) "version" = (recVer.map JValue.num).getD .undefined := by
    simp [objGetD, hver]
  simp only [StorageHandler.getItem, hrec, hvv, hvr, isObject, Bool.not_true,
    Bool.false_eq_true, if_false]
  cases hc : cfg.version with
  | none =>
    cases recVer with
    | none => simp [versionLooseEq]
    | some m => simp [versionLooseEq]
  | some n =>
    cases recVer with
    | none => simp [versionLooseEq]
    | some m =>
      by_cases h : n = m <;> simp [versionLooseEq, h]

theorem getItem_absent (cfg : PersistConfig) (pd : List (String × JValue)) (key : String)
    (h : isObject (persistLookup pd key) = false) :
    StorageHandler.getItem cfg pd key = ⟨.notFound, []⟩ := by
  simp [StorageHandler.getItem, h]

theorem filter_map_pair_not_mem (v : JValue) :
    ∀ (xs : List Nat) (l : Nat), l ∉ xs →
    (xs.map (fun x => (x, v))).filter (fun p => p.1 == l) = [] := by
  intro xs
  induction xs with
  | nil => intro l _; rfl
  | cons a rest ih =>
    intro l hmem
    simp only [List.mem_cons] at hmem
    push_neg at hmem
    have hne : a ≠ l := by
      intro hh
      exact hmem.1 hh.symm
    have h1 : (a == l) = false := by
      simp [hne]
    simp only [List.map_cons, List.filter_cons]
    simp [h1, ih l hmem.2]

theorem filter_map_pair_self (v : JValue) :
    ∀ (xs : List Nat) (l : Nat), xs.Nodup → l ∈ xs →
    (xs.map (fun x => (x, v))).filter (fun p => p.1 == l) = [(l, v)] := by
  intro xs
  induction xs with
  | nil => intro l _ h; simp at h
  | cons a rest ih =>
    intro l hnd hmem
    simp only [List.nodup_cons] at hnd
    rcases List.mem_cons.mp hmem with h | h
    · subst h
      rw [List.map_cons, List.filter_cons, filter_map_pair_not_mem v rest l hnd.1]
      simp
    · have hne : (a == l) = false := by
        have : a ≠ l := fun hh => hnd.1 (hh ▸ h)
        simp [this]
      simp only [List.map_cons, List.filter_cons]
      simp [hne, ih l hnd.2 h]

theorem filter_ne_erase (xs : List Nat) (l : Nat) :
    (xs.erase l).filter (fun x => !(x == l)) = xs.filter (fun x => !(x == l)) := by
  induction xs with
  | nil => rfl
  | cons a rest ih =>
    by_cases h : a = l
    · subst h
      rw [List.erase_cons_head]
      simp [List.filter_cons]
    · rw [List.erase_cons_tail (by simpa using h)]
      simp [List.filter_cons, h, ih]

theorem get_value_eq_state (pd : List (String × JValue)) (s : MasterState) :
    (AthrokMaster.get pd s).value = (AthrokMaster.get pd s).state.currentValue := by
  unfold AthrokMaster.get AthrokMaster.initializeValue
  split <;> rfl

theorem get_listeners_eq (pd : List (String × JValue)) (s : MasterState) :
    (AthrokMaster.get pd s).state.listeners = s.listeners := by
  unfold AthrokMaster.get AthrokMaster.initializeValue
  split <;> rfl

theorem nullish_of_isObject (st b : JValue) (h : isObject st = true) :
    nullish st b = st := by
  cases st <;> simp_all [isObject, nullish]

/-- C1: for a handler whose key has a well-formed cached record
`\x7b value, version \x7d` in the registry's `persistData`, `getItem()`
returns the stored value verbatim when the record's version equals the
config's version (including both absent); with differing versions it
returns `migrate(storedValue)` — invoking `migrate` exactly once on the
stale stored value — when `migrate` is configured, and the `NotFound`
sentinel otherwise; it never throws (the embedding is total). -/
theorem spec2proof_C1 (cfg : PersistConfig) (pd : List (String × JValue))
    (key : String) (fields : List (String × JValue)) (v : JValue) (recVer : Option Int)
    (hrec : persistLookup pd key = .obj fields)
    (hval : lookupF fields "value" = some v)
    (hver : lookupF fields "version" = recVer.map JValue.num) :
    (cfg.version = recVer →
      StorageHandler.getItem cfg pd key = ⟨.value v, []⟩) ∧
    (cfg.version ≠ recVer → ∀ m, cfg.migrate = some m →
      StorageHandler.getItem cfg pd key = ⟨.value (m v), [v]⟩) ∧
    (cfg.version ≠ recVer → cfg.migrate = none →
      StorageHandler.getItem cfg pd key = ⟨.notFound, []⟩) := by
  have h := getItem_wellformed cfg pd key fields v recVer hrec hval hver
  refine ⟨?_, ?_, ?_⟩
  · intro he
    rw [h, if_pos he]
  · intro hne m hm
    rw [h, if_neg hne, hm]
  · intro hne hm
    rw [h, if_neg hne, hm]

/-- Witness for C1 at a concrete stale record: config version 1, stored
record `\x7b value: 7, version: 0 \x7d`, migrate returning 99 — `getItem`
returns the migration result and `migrate` was called once, on 7. -/
theorem spec2proof_C1_witness :
    StorageHandler.getItem
      ⟨true, 100, some 1, some (fun _ => JValue.num 99), id, shallowMerge2⟩
      [("k", JValue.obj [("value", JValue.num 7), ("version", JValue.num 0)])]
      "k" = ⟨.value (JValue.num 99), [JValue.num 7]⟩ := by
  have h := spec2proof_C1
    ⟨true, 100, some 1, some (fun _ => JValue.num 99), id, shallowMerge2⟩
    [("k", JValue.obj [("value", JValue.num 7), ("version", JValue.num 0)])]
    "k" [("value", JValue.num 7), ("version", JValue.num 0)] (JValue.num 7) (some 0)
    (by rfl) (by rfl) (by rfl)
  exact h.2.1 (by decide) _ rfl

/-- C2: first-time hydration applies the type-specific merge policy —
`NotFound` leaves the initial value unchanged; a record-typed container
(both initial and stored values record-like, under either tag) sets its
value to the configured merge of initial and stored; a scalar/non-record
`AthrokState` container replaces its value outright with the stored
value; and with the default shallow merge, stored fields win on key
conflicts. -/
theorem spec2proof_C2 (pd : List (String × JValue)) (s : MasterState)
    (key : String) (cfg : PersistConfig)
    (hh : s.handler = .real key cfg)
    (hcur : s.currentValue = s.initialValue) :
    (StorageHandler.getItem cfg pd key = ⟨.notFound, []⟩ →
      (AthrokMaster.initializeValue pd s).state.currentValue = s.initialValue) ∧
    (∀ st mc, s.typeTag = "AthrokState" →
      StorageHandler.getItem cfg pd key = ⟨.value st, mc⟩ →
      isObject s.initialValue = true → isObject st = true →
      (AthrokMaster.initializeValue pd s).state.currentValue =
        cfg.merge s.initialValue st) ∧
    (∀ st mc, s.typeTag = "AthrokStore" →
      StorageHandler.getItem cfg pd key = ⟨.value st, mc⟩ →
      isObject s.initialValue = true → isObject st = true →
      (AthrokMaster.initializeValue pd s).state.currentValue =
        cfg.merge s.initialValue st) ∧
    (∀ st mc, s.typeTag = "AthrokState" →
      StorageHandler.getItem cfg pd key = ⟨.value st, mc⟩ →
      (isObject s.initialValue && isObject st) = false →
      (AthrokMaster.initializeValue pd s).state.currentValue = st) ∧
    (∀ fsI fsS k v, (fsS.map Prod.fst).Nodup → lookupF fsS k = some v →
      objGetD (shallowMerge2 (.obj fsI) (.obj fsS)) k = v) := by
  refine ⟨?_, ?_, ?_, ?_, ?_⟩
  · intro hg
    simp [AthrokMaster.initializeValue, handlerGetItem, hh, hg, hcur]
  · intro st mc htag hg hio hso
    simp [AthrokMaster.initializeValue, handlerGetItem, hh, hg, htag, hio, hso, hcur]
  · intro st mc htag hg hio hso
    simp [AthrokMaster.initializeValue, handlerGetItem, hh, hg, htag, hcur,
      nullish_of_isObject st _ hso]
  · intro st mc htag hg hboth
    simp [AthrokMaster.initializeValue, handlerGetItem, hh, hg, htag, hboth]
  · intro fsI fsS k v hnd hl
    exact shallowMerge2_stored_wins fsI fsS k v hnd hl

/-- Witness for C2: a record-style (`AthrokStore`) container with initial
`\x7b a:0, b:2 \x7d` hydrating against a cached record
`\x7b value: \x7b a:1 \x7d, version: 1 \x7d` under matching version ends
at `\x7b a:1, b:2 \x7d` (the spec's scenario 2). -/
theorem spec2proof_C2_witness :
    (AthrokMaster.initializeValue
      [("athrok-s", JValue.obj
        [("value", JValue.obj [("a", JValue.num 1)]), ("version", JValue.num 1)])]
      { typeTag := "AthrokStore"
        initialValue := JValue.obj [("a", JValue.num 0), ("b", JValue.num 2)]
        currentValue := JValue.obj [("a", JValue.num 0), ("b", JValue.num 2)]
        listeners := []
        handler := .real "athrok-s" ⟨true, 100, some 1, none, id, shallowMerge2⟩
        hydrated := false }).state.currentValue =
      JValue.obj [("a", JValue.num 1), ("b", JValue.num 2)] := by
  have h := spec2proof_C2
    [("athrok-s", JValue.obj
      [("value", JValue.obj [("a", JValue.num 1)]), ("version", JValue.num 1)])]
    { typeTag := "AthrokStore"
      initialValue := JValue.obj [("a", JValue.num 0), ("b", JValue.num 2)]
      currentValue := JValue.obj [("a", JValue.num 0), ("b", JValue.num 2)]
      listeners := []
      handler := .real "athrok-s" ⟨true, 100, some 1, none, id, shallowMerge2⟩
      hydrated := false }
    "athrok-s" ⟨true, 100, some 1, none, id, shallowMerge2⟩ rfl rfl
  rw [h.2.2.1 (JValue.obj [("a", JValue.num 1)]) [] rfl (by rfl) (by rfl) (by rfl)]
  rfl

theorem get_hydrated (pd : List (String × JValue)) (s : MasterState)
    (h : s.hydrated = true) :
    AthrokMaster.get pd s = ⟨s, s.currentValue, 0, []⟩ := by
  simp [AthrokMaster.get, h]

/-- C3: hydration runs at most once — on an unhydrated container the
first `get()` (or first `set()`) invokes `handler.getItem()` exactly
once, flips the container to hydrated, and every later `get()` — against
any registry cache whatsoever — returns the identical memoized value with
zero further handler invocations. -/
theorem spec2proof_C3 (pd : List (String × JValue)) (s : MasterState)
    (h : s.hydrated = false) :
    (AthrokMaster.get pd s).getItemCalls = 1 ∧
    (AthrokMaster.get pd s).state.hydrated = true ∧
    (∀ pd', AthrokMaster.get pd' (AthrokMaster.get pd s).state =
      ⟨(AthrokMaster.get pd s).state, (AthrokMaster.get pd s).value, 0, []⟩) ∧
    (∀ u, (AthrokMaster.set pd s u).getItemCalls = 1) := by
  have hh : (AthrokMaster.get pd s).state.hydrated = true := by
    simp [AthrokMaster.get, h, AthrokMaster.initializeValue]
  refine ⟨?_, hh, ?_, ?_⟩
  · simp [AthrokMaster.get, h, AthrokMaster.initializeValue]
  · intro pd'
    rw [get_value_eq_state pd s]
    exact get_hydrated pd' _ hh
  · intro u
    simp [AthrokMaster.set, AthrokMaster.get, h, AthrokMaster.initializeValue]

/-- Witness for C3 at a concrete unhydrated container: one handler read
on first `get()`, then a hydrated state whose later `get()` against a
changed registry cache reads nothing. -/
theorem spec2proof_C3_witness :
    (AthrokMaster.get []
      { typeTag := "AthrokStore"
        initialValue := JValue.num 0
        currentValue := JValue.num 0
        listeners := []
        handler := .uninitialized
        hydrated := false }).getItemCalls = 1 ∧
    (∀ pd', (AthrokMaster.get pd'
      (AthrokMaster.get []
        { typeTag := "AthrokStore"
          initialValue := JValue.num 0
          currentValue := JValue.num 0
          listeners := []
          handler := .uninitialized
          hydrated := false }).state).getItemCalls = 0) := by
  have h := spec2proof_C3 []
    { typeTag := "AthrokStore"
      initialValue := JValue.num 0
      currentValue := JValue.num 0
      listeners := []
      handler := .uninitialized
      hydrated := false } rfl
  exact ⟨h.1, fun pd' => by rw [h.2.2.1 pd']⟩

/-- C4: `set(update)` first forces hydration (same handler-read count as
`get()`), computes the new value from the just-hydrated current value (or
takes the literal), stores it, synchronously notifies every subscribed
listener exactly once with the new value in subscription order, and
forwards that same value to `handler.setItem`. -/
theorem spec2proof_C4 (pd : List (String × JValue)) (s : MasterState) (u : Update) :
    (AthrokMaster.set pd s u).state.currentValue =
      applyUpdate u (AthrokMaster.get pd s).state.currentValue ∧
    (AthrokMaster.set pd s u).getItemCalls = (AthrokMaster.get pd s).getItemCalls ∧
    (AthrokMaster.set pd s u).state.listeners = s.listeners ∧
    (AthrokMaster.set pd s u).notifications =
      s.listeners.map
        (fun l => (l, applyUpdate u (AthrokMaster.get pd s).state.currentValue)) ∧
    (AthrokMaster.set pd s u).persisted =
      [applyUpdate u (AthrokMaster.get pd s).state.currentValue] ∧
    (s.listeners.Nodup → ∀ l ∈ s.listeners,
      (AthrokMaster.set pd s u).notifications.filter (fun p => p.1 == l) =
        [(l, applyUpdate u (AthrokMaster.get pd s).state.currentValue)]) := by
  have hnotif : (AthrokMaster.set pd s u).notifications =
      s.listeners.map
        (fun l => (l, applyUpdate u (AthrokMaster.get pd s).state.currentValue)) := by
    show ((AthrokMaster.get pd s).state.listeners.map
      (fun l => (l, applyUpdate u (AthrokMaster.get pd s).state.currentValue))) = _
    rw [get_listeners_eq]
  refine ⟨rfl, rfl, ?_, hnotif, rfl, ?_⟩
  · show (AthrokMaster.get pd s).state.listeners = s.listeners
    exact get_listeners_eq pd s
  · intro hnd l hl
    rw [hnotif]
    exact filter_map_pair_self _ s.listeners l hnd hl

/-- Witness for C4: a hydrated container with listeners 5 and 9 receiving
a literal update — both notified once, in order, with the new value. -/
theorem spec2proof_C4_witness :
    (AthrokMaster.set []
      { typeTag := "AthrokStore"
        initialValue := JValue.num 0
        currentValue := JValue.num 0
        listeners := [5, 9]
        handler := .uninitialized
        hydrated := true } (.lit (JValue.num 3))).notifications =
      [(5, JValue.num 3), (9, JValue.num 3)] ∧
    (AthrokMaster.set []
      { typeTag := "AthrokStore"
        initialValue := JValue.num 0
        currentValue := JValue.num 0
        listeners := [5, 9]
        handler := .uninitialized
        hydrated := true } (.lit (JValue.num 3))).notifications.filter
        (fun p => p.1 == 5) = [(5, JValue.num 3)] := by
  have h := spec2proof_C4 []
    { typeTag := "AthrokStore"
      initialValue := JValue.num 0
      currentValue := JValue.num 0
      listeners := [5, 9]
      handler := .uninitialized
      hydrated := true } (.lit (JValue.num 3))
  exact ⟨h.2.2.2.1, h.2.2.2.2.2 (by decide) 5 (by decide)⟩

/-- C5: after the disposer returned by `subscribe(listener)` runs, that
listener receives no notification from any later `set()`; removing it
neither removes nor reorders any other subscribed listener. -/
theorem spec2proof_C5 (pd : List (String × JValue)) (s : MasterState) (l : Nat)
    (u : Update) (hnd : s.listeners.Nodup) :
    (∀ p ∈ (AthrokMaster.set pd (AthrokMaster.unsubscribe s l) u).notifications,
      p.1 ≠ l) ∧
    (∀ l', l' ≠ l →
      (l' ∈ (AthrokMaster.unsubscribe s l).listeners ↔ l' ∈ s.listeners)) ∧
    (AthrokMaster.unsubscribe s l).listeners.filter (fun x => !(x == l)) =
      s.listeners.filter (fun x => !(x == l)) := by
  refine ⟨?_, ?_, filter_ne_erase s.listeners l⟩
  · intro p hp
    have hn : (AthrokMaster.set pd (AthrokMaster.unsubscribe s l) u).notifications =
        (AthrokMaster.unsubscribe s l).listeners.map
          (fun x => (x, applyUpdate u
            (AthrokMaster.get pd (AthrokMaster.unsubscribe s l)).state.currentValue)) := by
      show ((AthrokMaster.get pd (AthrokMaster.unsubscribe s l)).state.listeners.map _) = _
      rw [get_listeners_eq]
    rw [hn] at hp
    obtain ⟨x, hx, hpx⟩ := List.mem_map.mp hp
    have hxl : x ≠ l := ((hnd.mem_erase_iff).mp hx).1
    rw [← hpx]
    exact hxl
  · intro l' hl'
    exact List.mem_erase_of_ne hl'

/-- Witness for C5: with listeners 5 and 9 subscribed, disposing 5 leaves
a later `set()` notifying only 9, and 9's membership and position are
untouched. -/
theorem spec2proof_C5_witness :
    (∀ p ∈ (AthrokMaster.set []
      (AthrokMaster.unsubscribe
        { typeTag := "AthrokStore"
          initialValue := JValue.num 0
          currentValue := JValue.num 0
          listeners := [5, 9]
          handler := .uninitialized
          hydrated := true } 5) (.lit (JValue.num 3))).notifications, p.1 ≠ 5) ∧
    (9 ∈ (AthrokMaster.unsubscribe
      { typeTag := "AthrokStore"
        initialValue := JValue.num 0
        currentValue := JValue.num 0
        listeners := [5, 9]
        handler := .uninitialized
        hydrated := true } 5).listeners ↔ 9 ∈ ([5, 9] : List Nat)) := by
  have h := spec2proof_C5 []
    { typeTag := "AthrokStore"
      initialValue := JValue.num 0
      currentValue := JValue.num 0
      listeners := [5, 9]
      handler := .uninitialized
      hydrated := true } 5 (.lit (JValue.num 3)) (by decide)
  exact ⟨h.1, h.2.1 9 (by decide)⟩

theorem runBurstGo_chain (cfg : PersistConfig) (key : String) :
    ∀ (calls : List (Nat × JValue)) (t : Nat) (v : JValue),
    withinBurst cfg.debounceTime ((t, v) :: calls) = true →
    runBurstGo cfg key (some (t + cfg.debounceTime, v)) calls =
      [⟨(lastCall (t, v) calls).1 + cfg.debounceTime, key,
        serializePayload cfg (lastCall (t, v) calls).2⟩] := by
  intro calls
  induction calls with
  | nil =>
    intro t v _
    simp [runBurstGo, lastCall]
  | cons hd rest ih =>
    intro t v h
    obtain ⟨t2, v2⟩ := hd
    have h1 : (t ≤ t2 ∧ t2 < t + cfg.debounceTime) ∧
        withinBurst cfg.debounceTime ((t2, v2) :: rest) = true := by
      simpa [withinBurst, Bool.and_eq_true, decide_eq_true_eq, and_assoc] using h
    have hnf : ¬ (t + cfg.debounceTime ≤ t2) := by omega
    simp only [runBurstGo, hnf, if_false, List.nil_append, lastCall]
    exact ih t2 v2 h1.2

/-- C6: a burst of `setItem` calls, each arriving within `debounceTime`
of the previous, produces exactly one backend write — at `debounceTime`
after the last call, carrying
`JSON.stringify(\x7b value: partial(lastValue), version \x7d)`; every
earlier scheduled write was cancelled and replaced. -/
theorem spec2proof_C6 (cfg : PersistConfig) (key : String) (t1 : Nat) (v1 : JValue)
    (rest : List (Nat × JValue))
    (h : withinBurst cfg.debounceTime ((t1, v1) :: rest) = true) :
    runBurst cfg key ((t1, v1) :: rest) =
      [⟨(lastCall (t1, v1) rest).1 + cfg.debounceTime, key,
        serializePayload cfg (lastCall (t1, v1) rest).2⟩] ∧
    (runBurst cfg key ((t1, v1) :: rest)).length = 1 := by
  have hmain : runBurst cfg key ((t1, v1) :: rest) =
      [⟨(lastCall (t1, v1) rest).1 + cfg.debounceTime, key,
        serializePayload cfg (lastCall (t1, v1) rest).2⟩] := by
    show runBurstGo cfg key none ((t1, v1) :: rest) = _
    simp only [runBurstGo, List.nil_append]
    exact runBurstGo_chain cfg key rest t1 v1 h
  exact ⟨hmain, by rw [hmain]; rfl⟩

/-- Witness for C6: the spec's scenario 5 — `debounceTime = 100`,
`setItem(1)` at t=0 and `setItem(2)` at t=50 yield exactly one write, at
t=150, carrying the serialization of the second value. -/
theorem spec2proof_C6_witness :
    runBurst ⟨true, 100, some 1, none, id, shallowMerge2⟩ "k"
      [(0, JValue.num 1), (50, JValue.num 2)] =
      [⟨150, "k", serializePayload ⟨true, 100, some 1, none, id, shallowMerge2⟩
        (JValue.num 2)⟩] := by
  have h := spec2proof_C6 ⟨true, 100, some 1, none, id, shallowMerge2⟩ "k"
    0 (JValue.num 1) [(50, JValue.num 2)] (by decide)
  exact h.1

/-- Counterexample to C7 as stated: a stored config string that is not
well-formed JSON does not leave initialize error-free — `JSON.parse`
throws and the exception propagates (there is no try/catch around the
config read). -/
theorem spec2proof_C7_counterexample :
    readConfigKeys (some "oops") ["k"] = .error .syntaxError := by
  rfl

/-- C7 (amended): a missing or empty config string is treated as an empty
key list and the config read completes normally with the key set
unchanged, as does a parseable config object carrying no `keys` list; but
a non-empty config string that fails to parse raises a `SyntaxError`, and
one that parses to `null` raises a `TypeError`, and either propagates to
the `initialize` caller. -/
theorem spec2proof_C7 (ks : List String) :
    readConfigKeys none ks = .ok ks ∧
    readConfigKeys (some "") ks = .ok ks ∧
    (∀ s, s ≠ "" → jsonParse s = none →
      readConfigKeys (some s) ks = .error .syntaxError) ∧
    (∀ s, s ≠ "" → jsonParse s = some .null →
      readConfigKeys (some s) ks = .error .typeError) ∧
    (∀ s fields, s ≠ "" → jsonParse s = some (.obj fields) →
      lookupF fields "keys" = none →
      readConfigKeys (some s) ks = .ok ks) := by
  refine ⟨rfl, rfl, ?_, ?_, ?_⟩
  · intro s hs hp
    simp [readConfigKeys, hs, hp]
  · intro s hs hp
    simp [readConfigKeys, hs, hp]
  · intro s fields hs hp hk
    simp [readConfigKeys, hs, hp, hk]

/-- Witness for C7 (amended) at concrete malformed inputs: `"oops"` fails
the parse and errors; `"null"` parses to `null` and errors reading
`.keys`. -/
theorem spec2proof_C7_witness :
    readConfigKeys (some "null") ["k"] = .error .typeError ∧
    readConfigKeys (some "not json") ["k"] = .error .syntaxError := by
  have h := spec2proof_C7 ["k"]
  exact ⟨h.2.2.2.1 "null" (by decide) (by rfl),
    h.2.2.1 "not json" (by decide) (by rfl)⟩

/-- C8: `clearPersistence(key)` removes the key from the registry's key
set, issues exactly one backend `removeItem(key)`, and then rewrites the
full config record — the serialization of the entire updated key set, in
which the key no longer occurs — with no incremental diffing. -/
theorem spec2proof_C8 (s : ManagerState) (key : String)
    (hinit : s.storageInitialized = true) (hnd : s.persistenceKeys.Nodup) :
    key ∉ (StorageManager.clearPersistence s key).1.persistenceKeys ∧
    (StorageManager.clearPersistence s key).1.persistenceKeys =
      s.persistenceKeys.erase key ∧
    (StorageManager.clearPersistence s key).2 =
      [.removeItem key,
       .setItem ATHROK_CONFIG_LABEL
         (jsonStringify (.obj [("keys",
           .arr ((s.persistenceKeys.erase key).map JValue.str))]))] ∧
    ((StorageManager.clearPersistence s key).2.countP
      (fun op => match op with
        | BackendOp.removeItem k => k == key
        | _ => false)) = 1 := by
  have hkeys : (StorageManager.clearPersistence s key).1.persistenceKeys =
      s.persistenceKeys.erase key := rfl
  have hops : (StorageManager.clearPersistence s key).2 =
      [.removeItem key,
       .setItem ATHROK_CONFIG_LABEL
         (jsonStringify (.obj [("keys",
           .arr ((s.persistenceKeys.erase key).map JValue.str))]))] := by
    show BackendOp.removeItem key :: syncPersistentConfig _ = _
    simp [syncPersistentConfig, hinit]
  refine ⟨?_, hkeys, hops, ?_⟩
  · rw [hkeys]
    intro hk
    exact ((hnd.mem_erase_iff).mp hk).1 rfl
  · rw [hops]
    simp [List.countP_cons]

/-- Witness for C8: clearing `"k"` from a registry holding `["k", "j"]`
on an initialized backend removes it, issues one `removeItem("k")`, and
rewrites the config record to carry only `["j"]`. -/
theorem spec2proof_C8_witness :
    "k" ∉ (StorageManager.clearPersistence
      ⟨true, [], ["k", "j"], true⟩ "k").1.persistenceKeys ∧
    (StorageManager.clearPersistence ⟨true, [], ["k", "j"], true⟩ "k").2 =
      [.removeItem "k",
       .setItem ATHROK_CONFIG_LABEL
         (jsonStringify (.obj [("keys", .arr [JValue.str "j"])]))] := by
  have h := spec2proof_C8 ⟨true, [], ["k", "j"], true⟩ "k" rfl (by decide)
  refine ⟨h.1, ?_⟩
  rw [h.2.2.1]
  rfl

/-- Counterexample to C9 as stated: the abstract-constructor guard is
not the only operation in the core that throws as a hard failure — the
registry-config read performed by `StorageManager.initialize` throws a
`TypeError` (reading `.keys` of `null`) on a config string that parses to
`null`, at the concrete input below. -/
theorem spec2proof_C9_counterexample :
    readConfigKeys (some "null") [] = .error .typeError := by
  rfl

/-- C9 (amended): constructing the abstract `AthrokMaster` base class
directly throws at construction time with the source's message, while
constructing either concrete subclass with the same arguments succeeds;
the constructor guard is however not the only hard failure in the core,
since the registry-config read of `StorageManager.initialize` also
throws on malformed config data. -/
theorem spec2proof_C9 (v : JValue) (config : Option StoreConfig) :
    AthrokMaster.construct .athrokMaster v config =
      .error "Parent class cannot be instantiated directly." ∧
    (∃ st, AthrokMaster.construct .athrokState v config = .ok st) ∧
    (∃ st, AthrokMaster.construct .athrokStore v config = .ok st) ∧
    (∃ cfgStr ks e, readConfigKeys (some cfgStr) ks = .error e) := by
  exact ⟨rfl, ⟨_, rfl⟩, ⟨_, rfl⟩, ⟨"null", [], .typeError, rfl⟩⟩

/-- C10 (frame effect): `clearPersistence(key)` never touches the
in-memory `persistData` cache — every handler read is unchanged by it,
and in particular a version-matching cached record under the cleared key
itself is still returned afterwards. -/
theorem spec2proof_C10 (s : ManagerState) (key : String) (cfg : PersistConfig)
    (fields : List (String × JValue)) (v : JValue) (recVer : Option Int)
    (hrec : persistLookup s.persistData key = .obj fields)
    (hval : lookupF fields "value" = some v)
    (hver : lookupF fields "version" = recVer.map JValue.num)
    (hmatch : cfg.version = recVer) :
    (StorageManager.clearPersistence s key).1.persistData = s.persistData ∧
    (∀ cfg2 k2, StorageHandler.getItem cfg2
        (StorageManager.clearPersistence s key).1.persistData k2 =
      StorageHandler.getItem cfg2 s.persistData k2) ∧
    StorageHandler.getItem cfg
        (StorageManager.clearPersistence s key).1.persistData key =
      ⟨.value v, []⟩ := by
  refine ⟨rfl, fun _ _ => rfl, ?_⟩
  have h := getItem_wellformed cfg s.persistData key fields v recVer hrec hval hver
  show StorageHandler.getItem cfg s.persistData key = _
  rw [h, if_pos hmatch]

/-- Witness for C10: after clearing `"k"`, a handler with matching
version still reads the cached value 7 under `"k"` from the registry's
in-memory cache. -/
theorem spec2proof_C10_witness :
    StorageHandler.getItem ⟨true, 100, some 1, none, id, shallowMerge2⟩
      (StorageManager.clearPersistence
        ⟨true, [("k", JValue.obj [("value", JValue.num 7), ("version", JValue.num 1)])],
         ["k"], true⟩ "k").1.persistData "k" =
      ⟨.value (JValue.num 7), []⟩ := by
  have h := spec2proof_C10
    ⟨true, [("k", JValue.obj [("value", JValue.num 7), ("version", JValue.num 1)])],
     ["k"], true⟩ "k" ⟨true, 100, some 1, none, id, shallowMerge2⟩
    [("value", JValue.num 7), ("version", JValue.num 1)] (JValue.num 7) (some 1)
    (by rfl) (by rfl) (by rfl) (by rfl)
  exact h.2.2
